import Mathlib

/-!
Verification of the changelog-md core (src/lib.rs, src/main.rs).

The Rust data model (`Changelog`, `Version`, `Changes`) is embedded as plain
Lean structures.  The Markdown renderer (`impl Display` for the three types,
lib.rs:132-215) is embedded as pure functions producing `String`; each Rust
`writeln!` contributes its text followed by `"\n"`.  The serde-derived codec
(lib.rs:13-76 together with the format adapters at lib.rs:249-280) is embedded
at the level of the serde data model: a generic tree of strings, arrays and
ordered string-keyed maps.  The textual layer (serde_yml / toml / serde_json
rendering a tree to bytes and back) is foreign library code, not part of this
repository, and is taken as faithful; everything the repository itself
contributes to the encoding - field order, skipped empty/absent fields, the
`KeyValueMap` keyed-list convention for `versions`, `#[serde(flatten)]` for
`changes`, and `deny_unknown_fields` - is modelled explicitly.
-/

namespace ChangelogMd

/-- Six categorized lists of change descriptions (lib.rs:57-76). -/
structure Changes where
  added : List String
  changed : List String
  deprecated : List String
  removed : List String
  fixed : List String
  security : List String
deriving DecidableEq

/-- `Changes::default()` (derived `Default`, lib.rs:55): all six lists empty. -/
def Changes.empty : Changes := ⟨[], [], [], [], [], []⟩

instance : Inhabited Changes := ⟨Changes.empty⟩

/-- `Changes::is_empty` (lib.rs:104-111). -/
def Changes.isEmpty (c : Changes) : Bool :=
  c.added.isEmpty && c.changed.isEmpty && c.deprecated.isEmpty
    && c.removed.isEmpty && c.fixed.isEmpty && c.security.isEmpty

/-- A released version (lib.rs:34-52). -/
structure Version where
  version : String
  tag : String
  date : String
  description : Option String
  yanked : Option String
  changes : Changes
deriving DecidableEq

/-- `Version::default()` (derived `Default`, lib.rs:32). -/
def Version.defaultVal : Version := ⟨"", "", "", none, none, Changes.empty⟩

instance : Inhabited Version := ⟨Version.defaultVal⟩

/-- The root changelog document (lib.rs:16-29). -/
structure Changelog where
  title : String
  description : String
  repository : String
  unreleased : Changes
  versions : List Version
deriving DecidableEq

/-! ### Markdown renderer (lib.rs:132-215) -/

/-- `Changes::write_changes_if_exist` (lib.rs:114-129): nothing when the list
is empty, otherwise a blank line, a level-3 heading, a blank line and one
bullet per entry. -/
def writeChangesIfExist (title : String) (changes : List String) : String :=
  if changes.isEmpty then ""
  else "\n" ++ "### " ++ title ++ "\n" ++ "\n"
    ++ String.join (changes.map (fun change => "- " ++ change ++ "\n"))

/-- `impl Display for Changes` (lib.rs:204-215): the six category blocks in
fixed order. -/
def Changes.render (c : Changes) : String :=
  writeChangesIfExist "Added" c.added
    ++ writeChangesIfExist "Changed" c.changed
    ++ writeChangesIfExist "Deprecated" c.deprecated
    ++ writeChangesIfExist "Removed" c.removed
    ++ writeChangesIfExist "Fixed" c.fixed
    ++ writeChangesIfExist "Security" c.security

/-- Rust `str::trim` as used at lib.rs:194: drop leading and trailing
whitespace characters. -/
def rustTrim (s : String) : String :=
  ⟨((s.data.dropWhile Char.isWhitespace).reverse.dropWhile Char.isWhitespace).reverse⟩

/-- Rust `str::ends_with("\n")` as used at lib.rs:137: the string's last
character is a newline. -/
def endsWithNewline (s : String) : Bool :=
  s.data.getLast? == some '\n'

/-- The heading line of a version block (lib.rs:187-190), without its
terminating newline: `## {version} - {date}` plus ` [YANKED] {reason}` when
`yanked` is set. -/
def Version.headingLine (v : Version) : String :=
  "## " ++ v.version ++ " - " ++ v.date
    ++ (match v.yanked with
        | some reason => " [YANKED] " ++ reason
        | none => "")

/-- The category blocks of a version (lib.rs:196-198): nothing when the
version's changes are empty, otherwise their rendering followed by the
newline of `writeln!`. -/
def Version.changesBlock (v : Version) : String :=
  if v.changes.isEmpty then "" else v.changes.render ++ "\n"

/-- `impl Display for Version` (lib.rs:185-202). -/
def Version.render (v : Version) : String :=
  v.headingLine ++ "\n" ++ "\n"
    ++ (match v.description with
        | some desc => rustTrim desc ++ "\n"
        | none => "")
    ++ v.changesBlock

/-- The lines of the `# Revisions` section (lib.rs:152-179), each later
emitted by `writeln!`.  The loop `for idx in 0..(versions.len() - 1)` pairing
`versions[idx]` with `versions[idx + 1]` is rendered as a map over
`versions.zip versions.tail`, whose entries are exactly those adjacent
pairs. -/
def revisionLines (c : Changelog) : List String :=
  match c.versions with
  | [] => ["- [unreleased] <" ++ c.repository ++ "/commits/>"]
  | v0 :: rest =>
      ("- [unreleased] <" ++ c.repository ++ "/compare/" ++ v0.tag ++ "...HEAD>")
        :: ((v0 :: rest).zip rest).map (fun p =>
              "- [" ++ p.1.version ++ "] <" ++ c.repository ++ "/compare/"
                ++ p.2.tag ++ ".." ++ p.1.tag ++ ">")
        ++ ["- [" ++ ((v0 :: rest).getLast (List.cons_ne_nil v0 rest)).version
              ++ "] <" ++ c.repository ++ "/commits/"
              ++ ((v0 :: rest).getLast (List.cons_ne_nil v0 rest)).tag ++ ">"]

/-- Steps 2-4 of `impl Display for Changelog` (lib.rs:140-179): the optional
`[Unreleased]` section, the version blocks and the `# Revisions` section. -/
def Changelog.renderBody (c : Changelog) : String :=
  (if c.unreleased.isEmpty then ""
   else "## [Unreleased]" ++ "\n" ++ c.unreleased.render ++ "\n")
    ++ String.join (c.versions.map Version.render)
    ++ "\n" ++ "# Revisions" ++ "\n" ++ "\n"
    ++ String.join ((revisionLines c).map (fun line => line ++ "\n"))

/-- `impl Display for Changelog` (lib.rs:132-182): title heading, blank line,
description (with an extra newline when the description does not end in one),
then the remaining sections. -/
def Changelog.render (c : Changelog) : String :=
  "# " ++ c.title ++ "\n" ++ "\n"
    ++ c.description ++ "\n"
    ++ (if endsWithNewline c.description then "" else "\n")
    ++ c.renderBody

/-! ### Mutating operations (src/main.rs) -/

/-- The `Release` command handler (main.rs:322-356), after the CLI has
resolved `date` (defaulted to today by `chrono` when absent).  A missing
`tag` defaults to the version string; a duplicate version name is rejected
before anything is modified; otherwise `unreleased` is moved into a new
`Version` inserted at position 0 and replaced by the default empty value.
The new version's remaining field comes from `..Default::default()`, so
`yanked = none`. -/
def Changelog.release (c : Changelog) (version : String) (tagOpt : Option String)
    (date : String) (description : Option String) : Except String Changelog :=
  let tag := tagOpt.getD version
  if c.versions.any (fun v => v.version == version) then
    .error ("Version " ++ version ++ " already exists!")
  else
    .ok { c with
            unreleased := Changes.empty,
            versions :=
              { version := version, tag := tag, date := date,
                description := description, yanked := none,
                changes := c.unreleased } :: c.versions }

/-- The `Yank` command handler (main.rs:358-382): the loop walks every
version, setting `yanked` on each entry whose `version` matches (there is no
early exit), and fails when none matched. -/
def Changelog.yank (c : Changelog) (version reason : String) : Except String Changelog :=
  if c.versions.any (fun v => v.version == version) then
    .ok { c with
            versions := c.versions.map (fun v =>
              if v.version == version then { v with yanked := some reason } else v) }
  else
    .error ("Could not find version " ++ version ++ " to yank")

/-! ### Serde codec at the data-model level (lib.rs:13-76, 249-280)

All three format adapters (`from_yaml`/`to_yaml`, `from_toml`/`to_toml`,
`from_json`/`to_json`) drive the same derived `Serialize`/`Deserialize`
implementation; they differ only in the foreign textual layer.  The derived
implementation is embedded here as a codec between `Changelog` and a generic
serde value tree. -/

/-- A value of the serde data model: a string scalar, a sequence, or a map
with ordered string keys. -/
inductive SerdeValue where
  | str : String → SerdeValue
  | arr : List SerdeValue → SerdeValue
  | obj : List (String × SerdeValue) → SerdeValue

/-- Serialization of a list of strings. -/
def encodeStrList (l : List String) : SerdeValue := .arr (l.map .str)

/-- One field of a `Changes` serialization: skipped entirely when the list is
empty (`#[serde(default, skip_serializing_if = "Vec::is_empty")]`,
lib.rs:59-75). -/
def listField (key : String) (l : List String) : List (String × SerdeValue) :=
  if l.isEmpty then [] else [(key, encodeStrList l)]

/-- The map entries of a serialized `Changes`, in declaration order. -/
def Changes.encodeFields (c : Changes) : List (String × SerdeValue) :=
  listField "added" c.added ++ listField "changed" c.changed
    ++ listField "deprecated" c.deprecated ++ listField "removed" c.removed
    ++ listField "fixed" c.fixed ++ listField "security" c.security

/-- Derived `Serialize` for `Changes`. -/
def Changes.encode (c : Changes) : SerdeValue := .obj c.encodeFields

/-- One optional string field: skipped when absent
(`#[serde(skip_serializing_if = "Option::is_none")]`, lib.rs:44, 47). -/
def optStrField (key : String) (o : Option String) : List (String × SerdeValue) :=
  match o with
  | some s => [(key, .str s)]
  | none => []

/-- The map entries of a serialized `Version` body, i.e. everything except
the `$key$`/`version` field, which `KeyValueMap` extracts as the map key.
`changes` is `#[serde(flatten)]` (lib.rs:50-51), so its entries are inlined
at the same level, after the version's own fields. -/
def Version.encodeBody (v : Version) : List (String × SerdeValue) :=
  [("tag", .str v.tag), ("date", .str v.date)]
    ++ optStrField "description" v.description
    ++ optStrField "yanked" v.yanked
    ++ v.changes.encodeFields

/-- Derived `Serialize` for `Changelog` with
`#[serde_as(as = "KeyValueMap<_>")]` on `versions` (lib.rs:27): the version
list serializes as an ordered map keyed by each entry's `version` string. -/
def Changelog.encode (c : Changelog) : SerdeValue :=
  .obj [("title", .str c.title),
        ("description", .str c.description),
        ("repository", .str c.repository),
        ("unreleased", c.unreleased.encode),
        ("versions", .obj (c.versions.map (fun v => (v.version, SerdeValue.obj v.encodeBody))))]

/-- The field names accepted by `Changes` (`deny_unknown_fields`,
lib.rs:56). -/
def changesKeys : List String :=
  ["added", "changed", "deprecated", "removed", "fixed", "security"]

/-- Deserialization of a list of strings. -/
def decodeStrList : SerdeValue → Except String (List String)
  | .arr xs =>
      xs.mapM (fun x =>
        match x with
        | .str s => .ok s
        | _ => .error "invalid type: expected a string")
  | _ => .error "invalid type: expected a sequence"

/-- Read a sequence-of-strings field, defaulting to the empty list when
absent (`#[serde(default)]`, lib.rs:59-75). -/
def getListField (fields : List (String × SerdeValue)) (key : String) :
    Except String (List String) :=
  match fields.lookup key with
  | some v => decodeStrList v
  | none => .ok []

/-- Derived `Deserialize` for `Changes` with `deny_unknown_fields`: any key
outside the six category names is rejected.  (serde additionally rejects a
duplicated field name; no claim depends on that and it is not modelled.) -/
def Changes.decode : SerdeValue → Except String Changes
  | .obj fields =>
      if fields.all (fun kv => changesKeys.contains kv.1) then do
        let a ← getListField fields "added"
        let c ← getListField fields "changed"
        let d ← getListField fields "deprecated"
        let r ← getListField fields "removed"
        let f ← getListField fields "fixed"
        let s ← getListField fields "security"
        return ⟨a, c, d, r, f, s⟩
      else .error "unknown field in changes"
  | _ => .error "invalid type: expected a map of changes"

/-- The non-flattened field names of `Version` other than the extracted
`$key$`. -/
def versionOwnKeys : List String := ["tag", "date", "description", "yanked"]

/-- Read a required string field. -/
def getStrField (fields : List (String × SerdeValue)) (key : String) :
    Except String String :=
  match fields.lookup key with
  | some (.str s) => .ok s
  | some _ => .error ("invalid type for field " ++ key)
  | none => .error ("missing field " ++ key)

/-- Read an optional string field (`Option<String>` is `none` when
absent). -/
def getOptStrField (fields : List (String × SerdeValue)) (key : String) :
    Except String (Option String) :=
  match fields.lookup key with
  | some (.str s) => .ok (some s)
  | some _ => .error ("invalid type for field " ++ key)
  | none => .ok none

/-- Derived `Deserialize` for `Version` from a `KeyValueMap` entry: the map
key is re-injected as the `version` field; the version's own fields are
consumed and every remaining entry is handed to the flattened `Changes`
deserializer, which rejects any name outside its schema.  In consequence an
unrecognized field inside a version entry fails the decode. -/
def Version.decodeBody (key : String) : SerdeValue → Except String Version
  | .obj fields => do
      let tag ← getStrField fields "tag"
      let date ← getStrField fields "date"
      let description ← getOptStrField fields "description"
      let yanked ← getOptStrField fields "yanked"
      let changes ← Changes.decode (.obj (fields.filter (fun kv => !versionOwnKeys.contains kv.1)))
      return ⟨key, tag, date, description, yanked, changes⟩
  | _ => .error "invalid type: expected a map for a version"

/-- The field names accepted at the `Changelog` root (`deny_unknown_fields`,
lib.rs:15). -/
def rootKeys : List String :=
  ["title", "description", "repository", "unreleased", "versions"]

/-- Derived `Deserialize` for `Changelog`: all five fields are required, an
unrecognized root key is rejected, and `versions` must be a map whose
entries are decoded in order with each key re-injected as the `version`
field. -/
def Changelog.decode : SerdeValue → Except String Changelog
  | .obj fields =>
      if fields.all (fun kv => rootKeys.contains kv.1) then do
        let title ← getStrField fields "title"
        let description ← getStrField fields "description"
        let repository ← getStrField fields "repository"
        let unreleased ←
          match fields.lookup "unreleased" with
          | some v => Changes.decode v
          | none => .error "missing field unreleased"
        let versions ←
          match fields.lookup "versions" with
          | some (.obj vs) => vs.mapM (fun kv => Version.decodeBody kv.1 kv.2)
          | some _ => .error "invalid type: versions must be a map keyed by version"
          | none => .error "missing field versions"
        return ⟨title, description, repository, unreleased, versions⟩
      else .error "unknown field at changelog root"
  | _ => .error "invalid type: expected a map"

/-- `Changelog::to_yaml` (lib.rs:268-270), modelled at the serde data-model
level: `serde_yml::to_string` drives the derived `Serialize`. -/
def Changelog.toYamlVal (c : Changelog) : SerdeValue := c.encode

/-- `Changelog::to_toml` (lib.rs:272-275), modelled at the serde data-model
level: `toml::to_string_pretty` drives the derived `Serialize`. -/
def Changelog.toTomlVal (c : Changelog) : SerdeValue := c.encode

/-- `Changelog::to_json` (lib.rs:277-280), modelled at the serde data-model
level: `serde_json::to_string_pretty` drives the derived `Serialize` (the
trailing newline added to the text is below this model's level). -/
def Changelog.toJsonVal (c : Changelog) : SerdeValue := c.encode

/-- `Changelog::from_yaml` (lib.rs:249-253), modelled at the serde
data-model level: the `serde_yml` deserializer drives the derived
`Deserialize`. -/
def Changelog.fromYamlVal (v : SerdeValue) : Except String Changelog :=
  Changelog.decode v

/-- `Changelog::from_toml` (lib.rs:261-265), modelled at the serde
data-model level. -/
def Changelog.fromTomlVal (v : SerdeValue) : Except String Changelog :=
  Changelog.decode v

/-- `Changelog::from_json` (lib.rs:255-259), modelled at the serde
data-model level. -/
def Changelog.fromJsonVal (v : SerdeValue) : Except String Changelog :=
  Changelog.decode v

/-- Whether an `Except` is in its error case. -/
def isErr {α : Type} : Except String α → Bool
  | .error _ => true
  | .ok _ => false

/-! ### Specification-side definitions and concrete values -/

/-- The Revisions derivation exactly as the specification words it, for
comparison with `revisionLines`: a single commits line when `versions` is
empty; otherwise an unreleased compare line against `versions[0].tag`, one
two-tag compare line for each index `i` from `0` to `len - 2`, and a
single-tag commits line for the oldest (last) version. -/
def revisionLinesSpec (c : Changelog) : List String :=
  if c.versions.isEmpty then
    ["- [unreleased] <" ++ c.repository ++ "/commits/>"]
  else
    ("- [unreleased] <" ++ c.repository ++ "/compare/"
        ++ (c.versions.getD 0 Version.defaultVal).tag ++ "...HEAD>")
      :: (List.range (c.versions.length - 1)).map (fun i =>
            "- [" ++ (c.versions.getD i Version.defaultVal).version ++ "] <"
              ++ c.repository ++ "/compare/"
              ++ (c.versions.getD (i + 1) Version.defaultVal).tag ++ ".."
              ++ (c.versions.getD i Version.defaultVal).tag ++ ">")
      ++ ["- [" ++ (c.versions.getD (c.versions.length - 1) Version.defaultVal).version
            ++ "] <" ++ c.repository ++ "/commits/"
            ++ (c.versions.getD (c.versions.length - 1) Version.defaultVal).tag ++ ">"]

/-- First of two versions sharing the version string `1.0.0`. -/
def yankA : Version := ⟨"1.0.0", "v1-first", "2025-01-01", none, none, Changes.empty⟩

/-- Second of two versions sharing the version string `1.0.0`. -/
def yankB : Version := ⟨"1.0.0", "v1-second", "2025-01-02", none, none, Changes.empty⟩

/-- A changelog whose two versions carry the same version string. -/
def yankDup : Changelog := ⟨"t", "d", "r", Changes.empty, [yankA, yankB]⟩

/-- A one-version changelog used to instantiate the yank theorem. -/
def yankOne : Changelog :=
  ⟨"t", "d", "r", Changes.empty, [⟨"1.0.0", "v1", "2025-01-01", none, none, Changes.empty⟩]⟩

/-- A one-version changelog used to instantiate the release theorems. -/
def relOne : Changelog :=
  ⟨"t", "d", "r", Changes.empty, [⟨"0.9.0", "v0.9", "2024-01-01", none, none, Changes.empty⟩]⟩

/-- A version whose description is whitespace-only. -/
def wsVer : Version := ⟨"1.0.0", "v1", "2025-01-01", some " ", none, ⟨["a"], [], [], [], [], []⟩⟩

/-- A one-version changelog used in the encoding counterexample. -/
def exChangelog : Changelog :=
  ⟨"T", "D", "R", Changes.empty, [⟨"1.0.0", "v1.0.0", "2025-01-01", none, none, Changes.empty⟩]⟩

/-- The serde tree that `versions`-as-plain-array would produce for
`exChangelog`: an array of full version objects with the `version` field
inline. -/
def exPlainArrayTree : SerdeValue :=
  .obj [("title", .str "T"), ("description", .str "D"), ("repository", .str "R"),
        ("unreleased", .obj []),
        ("versions", .arr [.obj [("version", .str "1.0.0"), ("tag", .str "v1.0.0"),
                                 ("date", .str "2025-01-01")]])]

/-- A root document carrying an unrecognized field. -/
def badRootTree : List (String × SerdeValue) :=
  [("title", .str "t"), ("description", .str "d"), ("repository", .str "r"),
   ("unreleased", .obj []), ("versions", .obj []), ("extra_field", .str "x")]

/-- A version entry body carrying an unrecognized field. -/
def badVersionFields : List (String × SerdeValue) :=
  [("tag", .str "v1"), ("date", .str "2025-01-01"), ("extra_field", .str "x")]

/-- A changes block carrying an unrecognized field. -/
def badChangesFields : List (String × SerdeValue) :=
  [("added", .arr [.str "a"]), ("extra_field", .str "x")]

/-! ### Helper lemmas -/

lemma zip_tail_map_eq_range_map {α β : Type} (d : α) (f : α × α → β) :
    ∀ l : List α, (l.zip l.tail).map f
      = (List.range (l.length - 1)).map (fun i => f (l.getD i d, l.getD (i + 1) d))
  | [] => by simp
  | [a] => by simp
  | a :: b :: t => by
      have ih := zip_tail_map_eq_range_map d f (b :: t)
      simp only [List.tail_cons] at ih
      rw [List.tail_cons, List.zip_cons_cons, List.map_cons, ih]
      have hlen : (a :: b :: t).length - 1 = ((b :: t).length - 1) + 1 := by
        simp
      rw [hlen, List.range_succ_eq_map, List.map_cons, List.map_map]
      simp only [Function.comp_def, List.getD_cons_zero, List.getD_cons_succ]

lemma getLast_cons_eq_getD {α : Type} [Inhabited α] (a : α) (t : List α) :
    (a :: t).getLast (List.cons_ne_nil a t)
      = (a :: t).getD ((a :: t).length - 1) default := by
  rw [List.getLast_eq_getElem, List.getD_eq_getElem]

lemma rustTrim_of_whitespace (s : String) (h : ∀ ch ∈ s.data, ch.isWhitespace) :
    rustTrim s = "" := by
  unfold rustTrim
  have hd : s.data.dropWhile Char.isWhitespace = [] :=
    List.dropWhile_eq_nil_iff.mpr h
  rw [hd]
  rfl

lemma endsWithNewline_append_newline (s : String) :
    endsWithNewline (s ++ "\n") = true := by
  unfold endsWithNewline
  rw [String.data_append]
  have : ("\n".data : List Char) = ['\n'] := rfl
  rw [this, List.getLast?_concat]
  rfl

/-! ### Claim theorems -/

/-- Claim C1: the Revisions section of the Markdown rendering is derived
exactly as the specification states: a single `- [unreleased]
<{repository}/commits/>` line when `versions` is empty; otherwise an
unreleased compare line against `versions[0].tag`, then for each index `i`
from `0` to `len - 2` the line comparing `versions[i+1].tag` to
`versions[i].tag` labelled `versions[i].version`, and finally the single-tag
commits line for the oldest (last) version - in total `versions.length + 1`
lines, with only the oldest version in single-tag form. -/
theorem revisions_section_derivation (c : Changelog) :
    revisionLines c = revisionLinesSpec c
    ∧ (revisionLines c).length = c.versions.length + 1 := by
  obtain ⟨t, d, r, u, vs⟩ := c
  have hmain : revisionLines ⟨t, d, r, u, vs⟩ = revisionLinesSpec ⟨t, d, r, u, vs⟩ := by
    cases vs with
    | nil => rfl
    | cons v0 rest =>
        unfold revisionLines revisionLinesSpec
        simp only [List.isEmpty_cons, if_neg, Bool.false_eq_true, not_false_iff]
        have hz := zip_tail_map_eq_range_map Version.defaultVal
          (fun p : Version × Version =>
            "- [" ++ p.1.version ++ "] <" ++ r ++ "/compare/"
              ++ p.2.tag ++ ".." ++ p.1.tag ++ ">") (v0 :: rest)
        simp only [List.tail_cons] at hz
        rw [hz, getLast_cons_eq_getD]
        simp only [List.getD_cons_zero]
        rfl
  refine ⟨hmain, ?_⟩
  rw [hmain]
  unfold revisionLinesSpec
  cases vs with
  | nil => rfl
  | cons v0 rest =>
      simp only [List.isEmpty_cons, Bool.false_eq_true, if_false, List.length_cons,
        List.length_append, List.length_map, List.length_range, List.length_singleton,
        List.length_nil]
      omega

/-- Claim C5 counterexample: on a changelog whose two versions share the
version string `1.0.0`, the yank operation sets `yanked` on BOTH entries,
not only on the first matching one - the second matching entry does not
stay untouched as the claim states. -/
theorem yank_modifies_second_duplicate :
    Changelog.yank yankDup "1.0.0" "why"
      = .ok { yankDup with versions := [{ yankA with yanked := some "why" },
                                        { yankB with yanked := some "why" }] }
    ∧ ({ yankB with yanked := some "why" } : Version) ≠ yankB := by
  refine ⟨rfl, ?_⟩
  decide

/-- Claim C5 (amended): the yank operation with version string `v` and
reason `r` succeeds whenever some version matches `v`, and sets
`yanked = some r` on EVERY matching entry while leaving every non-matching
entry, the unreleased bucket and the document metadata unchanged.  (When
version strings are unique - the intended situation - the unique matching
entry is the first one, as the original claim states.) -/
theorem yank_sets_every_match (c : Changelog) (version reason : String)
    (h : ∃ x ∈ c.versions, x.version = version) :
    ∃ c', Changelog.yank c version reason = .ok c'
      ∧ c'.title = c.title ∧ c'.description = c.description
      ∧ c'.repository = c.repository ∧ c'.unreleased = c.unreleased
      ∧ c'.versions.length = c.versions.length
      ∧ (∀ i x, c.versions.get? i = some x →
          c'.versions.get? i =
            some (if x.version == version then { x with yanked := some reason } else x)) := by
  obtain ⟨x, hx, hv⟩ := h
  have hany : c.versions.any (fun v => v.version == version) = true := by
    rw [List.any_eq_true]
    exact ⟨x, hx, by simp [hv]⟩
  refine ⟨{ c with versions := c.versions.map (fun v =>
      if v.version == version then { v with yanked := some reason } else v) },
    ?_, rfl, rfl, rfl, rfl, by simp, ?_⟩
  · simp [Changelog.yank, hany]
  · intro i y hy
    rw [List.get?_map, hy]
    rfl

/-- Claim C5 witness: the amended yank theorem instantiated on a concrete
one-version changelog. -/
theorem yank_sets_every_match_witness :
    ∃ c', Changelog.yank yankOne "1.0.0" "oops" = .ok c'
      ∧ c'.title = yankOne.title ∧ c'.description = yankOne.description
      ∧ c'.repository = yankOne.repository ∧ c'.unreleased = yankOne.unreleased
      ∧ c'.versions.length = yankOne.versions.length
      ∧ (∀ i x, yankOne.versions.get? i = some x →
          c'.versions.get? i =
            some (if x.version == "1.0.0" then { x with yanked := some "oops" } else x)) :=
  yank_sets_every_match yankOne "1.0.0" "oops"
    ⟨⟨"1.0.0", "v1", "2025-01-01", none, none, Changes.empty⟩, by decide, rfl⟩

/-- Claim C6: releasing version `1.2.3` with tag `v1.2.3`, date
`2025-01-01` and description `d` from a changelog whose unreleased bucket
holds exactly `changed = ["x"]` and whose version list is empty empties the
unreleased bucket and produces the single expected version, with
`yanked = none`. -/
theorem release_moves_unreleased (titl descr repo : String) :
    Changelog.release ⟨titl, descr, repo, ⟨[], ["x"], [], [], [], []⟩, []⟩
        "1.2.3" (some "v1.2.3") "2025-01-01" (some "d")
      = .ok ⟨titl, descr, repo, Changes.empty,
             [⟨"1.2.3", "v1.2.3", "2025-01-01", some "d", none,
               ⟨[], ["x"], [], [], [], []⟩⟩]⟩ := rfl

/-- Claim C7: a release whose version string already occurs among the
existing versions fails with the duplicate-version error.  The check runs
before any mutation (main.rs:335-337), and on the error path the CLI never
writes the file, so the document is left exactly as it was. -/
theorem release_duplicate_rejected (c : Changelog) (version : String)
    (tagOpt : Option String) (date : String) (description : Option String)
    (h : ∃ x ∈ c.versions, x.version = version) :
    Changelog.release c version tagOpt date description
      = .error ("Version " ++ version ++ " already exists!") := by
  obtain ⟨x, hx, hv⟩ := h
  have hany : c.versions.any (fun v => v.version == version) = true := by
    rw [List.any_eq_true]
    exact ⟨x, hx, by simp [hv]⟩
  simp [Changelog.release, hany]

/-- Claim C7 witness: the duplicate-release theorem instantiated on a
concrete one-version changelog. -/
theorem release_duplicate_rejected_witness :
    Changelog.release relOne "0.9.0" none "2025-02-02" none
      = .error ("Version " ++ "0.9.0" ++ " already exists!") :=
  release_duplicate_rejected relOne "0.9.0" none "2025-02-02" none
    ⟨⟨"0.9.0", "v0.9", "2024-01-01", none, none, Changes.empty⟩, by decide, rfl⟩

/-- Claim C9: a release with a fresh version string succeeds, leaves title,
description and repository unchanged, shifts every previously existing
version one position later in order, and places the new version - with
`yanked = none` - at position 0. -/
theorem release_inserts_preserving (c : Changelog) (version : String)
    (tagOpt : Option String) (date : String) (description : Option String)
    (h : ∀ x ∈ c.versions, x.version ≠ version) :
    ∃ c', Changelog.release c version tagOpt date description = .ok c'
      ∧ c'.title = c.title ∧ c'.description = c.description
      ∧ c'.repository = c.repository
      ∧ c'.versions.length = c.versions.length + 1
      ∧ (∀ i, c'.versions.get? (i + 1) = c.versions.get? i)
      ∧ (∃ newV, c'.versions.get? 0 = some newV ∧ newV.yanked = none) := by
  have hany : c.versions.any (fun v => v.version == version) = false := by
    rw [List.any_eq_false]
    intro x hx
    simp [h x hx]
  refine ⟨{ c with
      unreleased := Changes.empty,
      versions := { version := version, tag := tagOpt.getD version, date := date,
                    description := description, yanked := none,
                    changes := c.unreleased } :: c.versions },
    ?_, rfl, rfl, rfl, by simp, fun i => rfl, ⟨_, rfl, rfl⟩⟩
  simp [Changelog.release, hany]

/-- Claim C9 witness: the release frame theorem instantiated on a concrete
one-version changelog and a fresh version string. -/
theorem release_inserts_preserving_witness :
    ∃ c', Changelog.release relOne "1.0.0" none "2025-01-01" none = .ok c'
      ∧ c'.title = relOne.title ∧ c'.description = relOne.description
      ∧ c'.repository = relOne.repository
      ∧ c'.versions.length = relOne.versions.length + 1
      ∧ (∀ i, c'.versions.get? (i + 1) = relOne.versions.get? i)
      ∧ (∃ newV, c'.versions.get? 0 = some newV ∧ newV.yanked = none) :=
  release_inserts_preserving relOne "1.0.0" none "2025-01-01" none (by decide)

/-- Claim C8: the Markdown rendering starts with the level-1 title heading,
a blank line, then the description normalized to carry a trailing newline
exactly when the source lacks one, followed by exactly one blank-line
separator before the remaining sections - regardless of whether the
description ends in a newline. -/
theorem render_normalizes_description (c : Changelog) :
    Changelog.render c
      = "# " ++ c.title ++ "\n" ++ "\n"
        ++ (if endsWithNewline c.description then c.description else c.description ++ "\n")
        ++ "\n" ++ c.renderBody
    ∧ endsWithNewline
        (if endsWithNewline c.description then c.description else c.description ++ "\n")
        = true := by
  by_cases hd : endsWithNewline c.description
  · refine ⟨?_, by simp [hd]⟩
    simp only [Changelog.render, hd, if_true, String.append_empty, String.append_assoc]
  · refine ⟨?_, by simp [hd, endsWithNewline_append_newline]⟩
    simp only [Changelog.render, hd, if_false, Bool.false_eq_true, String.append_assoc]

/-- Claim C10: a version whose description is present but consists only of
whitespace renders with an extra empty line (the trimmed description) after
the blank line that follows its heading, so its rendering differs from the
rendering of the identical version with no description. -/
theorem whitespace_description_extra_line (v : Version) (s : String)
    (h1 : v.description = some s) (h2 : ∀ ch ∈ s.data, ch.isWhitespace) :
    Version.render v = v.headingLine ++ "\n" ++ "\n" ++ "\n" ++ v.changesBlock
    ∧ Version.render { v with description := none }
        = v.headingLine ++ "\n" ++ "\n" ++ v.changesBlock
    ∧ Version.render v ≠ Version.render { v with description := none } := by
  have e1 : Version.render v = v.headingLine ++ "\n" ++ "\n" ++ "\n" ++ v.changesBlock := by
    unfold Version.render
    rw [h1]
    simp only [rustTrim_of_whitespace s h2, String.empty_append, String.append_assoc]
  have e2 : Version.render { v with description := none }
      = v.headingLine ++ "\n" ++ "\n" ++ v.changesBlock := by
    simp only [Version.render, Version.headingLine, Version.changesBlock,
      String.append_empty, String.append_assoc]
  refine ⟨e1, e2, ?_⟩
  rw [e1, e2]
  intro heq
  have hlen := congrArg String.length heq
  have hnl : ("\n" : String).length = 1 := rfl
  simp only [String.length_append, hnl] at hlen
  omega

/-- Claim C10 witness: the whitespace-description theorem instantiated on a
concrete version whose description is a single space. -/
theorem whitespace_description_extra_line_witness :
    Version.render wsVer = wsVer.headingLine ++ "\n" ++ "\n" ++ "\n" ++ wsVer.changesBlock
    ∧ Version.render { wsVer with description := none }
        = wsVer.headingLine ++ "\n" ++ "\n" ++ wsVer.changesBlock
    ∧ Version.render wsVer ≠ Version.render { wsVer with description := none } :=
  whitespace_description_extra_line wsVer " " rfl (by decide)

/-! ### Codec lemmas -/

lemma mapM_decodeStr (l : List String) :
    (l.map SerdeValue.str).mapM (fun x =>
      match x with
      | .str s => Except.ok s
      | _ => Except.error "invalid type: expected a string") = Except.ok l := by
  induction l with
  | nil => rfl
  | cons a t ih => rw [List.map_cons, List.mapM_cons, ih]; rfl

lemma decodeStrList_encodeStrList (l : List String) :
    decodeStrList (encodeStrList l) = .ok l := mapM_decodeStr l

set_option maxHeartbeats 1000000 in
lemma changes_decode_encode (c : Changes) :
    Changes.decode (Changes.encode c) = .ok c := by
  obtain ⟨a, ch, d, r, f, s⟩ := c
  cases a <;> cases ch <;> cases d <;> cases r <;> cases f <;> cases s <;>
    simp [Changes.decode, Changes.encode, Changes.encodeFields, listField, changesKeys,
      getListField, List.lookup_cons, decodeStrList_encodeStrList,
      Bind.bind, Except.bind, pure, Except.pure]

lemma encodeFields_fst {kv : String × SerdeValue} {c : Changes}
    (h : kv ∈ c.encodeFields) : kv.1 ∈ changesKeys := by
  unfold Changes.encodeFields at h
  simp only [List.mem_append, or_assoc] at h
  rcases h with h | h | h | h | h | h <;>
    · unfold listField at h
      split at h <;> simp_all [changesKeys]

lemma lookup_encodeFields_none {c : Changes} {k : String} (h : k ∉ changesKeys) :
    c.encodeFields.lookup k = none := by
  rw [List.lookup_eq_none_iff]
  intro p hp
  have hmem := encodeFields_fst hp
  simp only [bne_iff_ne]
  intro hk
  exact h (hk ▸ hmem)

lemma changes_decode_encode_fields (c : Changes) :
    Changes.decode (.obj c.encodeFields) = .ok c := changes_decode_encode c

lemma version_decode_encode (v : Version) :
    Version.decodeBody v.version (.obj v.encodeBody) = .ok v := by
  obtain ⟨ver, tag, date, desc, yank, ch⟩ := v
  have hld : ch.encodeFields.lookup "description" = none :=
    lookup_encodeFields_none (by decide)
  have hly : ch.encodeFields.lookup "yanked" = none :=
    lookup_encodeFields_none (by decide)
  have hfil : ch.encodeFields.filter
      (fun kv => !decide (kv.1 = "tag") &&
        (!decide (kv.1 = "date") && (!decide (kv.1 = "description") && !decide (kv.1 = "yanked"))))
      = ch.encodeFields := by
    rw [List.filter_eq_self]
    intro kv hkv
    have hmem := encodeFields_fst hkv
    simp only [changesKeys, List.mem_cons, List.not_mem_nil, or_false] at hmem
    rcases hmem with h | h | h | h | h | h <;> simp [h]
  cases desc <;> cases yank <;>
    simp [Version.decodeBody, Version.encodeBody, optStrField, getStrField, getOptStrField,
      List.lookup_append, List.lookup_cons, hld, hly, versionOwnKeys,
      List.filter_append, List.filter_cons, hfil,
      changes_decode_encode_fields, Bind.bind, Except.bind, pure, Except.pure]

lemma mapM_decode_versions (vs : List Version) :
    (vs.map (fun v => (v.version, SerdeValue.obj v.encodeBody))).mapM
      (fun kv => Version.decodeBody kv.1 kv.2) = .ok vs := by
  induction vs with
  | nil => rfl
  | cons v t ih =>
      rw [List.map_cons, List.mapM_cons, ih]
      have hv := version_decode_encode v
      simp only [hv]
      rfl

lemma changelog_decode_encode (c : Changelog) :
    Changelog.decode (Changelog.encode c) = .ok c := by
  obtain ⟨t, d, r, u, vs⟩ := c
  have hvs := mapM_decode_versions vs
  simp only [List.mapM] at hvs
  simp [Changelog.decode, Changelog.encode, rootKeys, getStrField, List.lookup_cons,
    changes_decode_encode, hvs,
    Bind.bind, Except.bind, pure, Except.pure]

lemma isErr_bind {α β : Type} (x : Except String α) (f : α → Except String β)
    (h : ∀ a, isErr (f a) = true) : isErr (x >>= f) = true := by
  cases x with
  | error e => rfl
  | ok a => exact h a

lemma isErr_bind_left {α β : Type} (x : Except String α) (f : α → Except String β)
    (h : isErr x = true) : isErr (x >>= f) = true := by
  cases x with
  | error e => rfl
  | ok a => simp [isErr] at h

lemma changes_decode_unknown {fields : List (String × SerdeValue)} {k : String}
    {val : SerdeValue} (hmem : (k, val) ∈ fields) (hk : k ∉ changesKeys) :
    isErr (Changes.decode (.obj fields)) = true := by
  have hall : fields.all (fun kv => changesKeys.contains kv.1) = false := by
    rw [List.all_eq_false]
    exact ⟨(k, val), hmem, by simp [hk]⟩
  have hneg : ¬ (fields.all (fun kv => changesKeys.contains kv.1) = true) := by
    simp only [hall]
    decide
  simp only [Changes.decode, if_neg hneg]
  rfl

lemma version_decode_unknown {key : String} {fields : List (String × SerdeValue)}
    {k : String} {val : SerdeValue} (hmem : (k, val) ∈ fields)
    (h1 : k ∉ versionOwnKeys) (h2 : k ∉ changesKeys) :
    isErr (Version.decodeBody key (.obj fields)) = true := by
  have hrest : (k, val) ∈ fields.filter (fun kv => !versionOwnKeys.contains kv.1) := by
    rw [List.mem_filter]
    exact ⟨hmem, by simp [h1]⟩
  simp only [Version.decodeBody]
  apply isErr_bind; intro tag
  apply isErr_bind; intro date
  apply isErr_bind; intro desc
  apply isErr_bind; intro yank
  exact isErr_bind_left _ _ (changes_decode_unknown hrest h2)

lemma changelog_decode_unknown {fields : List (String × SerdeValue)} {k : String}
    {val : SerdeValue} (hmem : (k, val) ∈ fields) (hk : k ∉ rootKeys) :
    isErr (Changelog.decode (.obj fields)) = true := by
  have hall : fields.all (fun kv => rootKeys.contains kv.1) = false := by
    rw [List.all_eq_false]
    exact ⟨(k, val), hmem, by simp [hk]⟩
  have hneg : ¬ (fields.all (fun kv => rootKeys.contains kv.1) = true) := by
    simp only [hall]
    decide
  simp only [Changelog.decode, if_neg hneg]
  rfl

/-- Claim C2 counterexample: `to_json` drives the same derived serializer as
the other formats, so on a concrete one-version changelog the `versions`
field of the produced tree is a map keyed by the version string - not a
plain array - and decoding the plain-array form the claim describes fails. -/
theorem json_versions_not_plain_array :
    Changelog.toJsonVal exChangelog
      = .obj [("title", .str "T"), ("description", .str "D"), ("repository", .str "R"),
              ("unreleased", .obj []),
              ("versions", .obj [("1.0.0", .obj [("tag", .str "v1.0.0"),
                                                 ("date", .str "2025-01-01")])])]
    ∧ isErr (Changelog.fromJsonVal exPlainArrayTree) = true :=
  ⟨rfl, rfl⟩

/-- Claim C2 (amended): in the generic JSON encoding, `to_json` serializes
`versions` with the same keyed-map convention as the other two formats - an
ordered map keyed by each entry's version string, with the `version` field
removed from the body - and `from_json` decodes exactly that keyed-map
form back to the original value. -/
theorem json_encodes_versions_as_keyed_map (x : Changelog) :
    (match Changelog.toJsonVal x with
     | .obj fields => fields.lookup "versions"
     | _ => none)
      = some (.obj (x.versions.map (fun v => (v.version, SerdeValue.obj v.encodeBody))))
    ∧ Changelog.fromJsonVal (Changelog.toJsonVal x) = .ok x := by
  refine ⟨?_, changelog_decode_encode x⟩
  simp [Changelog.toJsonVal, Changelog.encode, List.lookup_cons]

/-- Claim C3: for each of the three formats, decoding the encoding of any
`Changelog` value yields the value back, structurally equal in every field
- including zero, one or several versions with mixed optional fields.  The
three format adapters share one derived codec, modelled at the serde
data-model level; the textual layer is foreign library code. -/
theorem roundtrip_three_formats (x : Changelog) :
    Changelog.fromYamlVal (Changelog.toYamlVal x) = .ok x
    ∧ Changelog.fromTomlVal (Changelog.toTomlVal x) = .ok x
    ∧ Changelog.fromJsonVal (Changelog.toJsonVal x) = .ok x :=
  ⟨changelog_decode_encode x, changelog_decode_encode x, changelog_decode_encode x⟩

/-- Claim C4: a document whose root, version entry or changes block
contains a field name outside the schema fails to decode.  At the root and
in a changes block `deny_unknown_fields` rejects the key directly; inside a
version entry the unknown key is passed to the flattened `Changes`
deserializer, which rejects it.  All three format adapters share this one
derived decoder. -/
theorem unknown_fields_rejected :
    (∀ (fields : List (String × SerdeValue)) (k : String) (val : SerdeValue),
        (k, val) ∈ fields → k ∉ rootKeys →
        isErr (Changelog.decode (.obj fields)) = true)
    ∧ (∀ (key : String) (fields : List (String × SerdeValue)) (k : String) (val : SerdeValue),
        (k, val) ∈ fields → k ∉ versionOwnKeys → k ∉ changesKeys →
        isErr (Version.decodeBody key (.obj fields)) = true)
    ∧ (∀ (fields : List (String × SerdeValue)) (k : String) (val : SerdeValue),
        (k, val) ∈ fields → k ∉ changesKeys →
        isErr (Changes.decode (.obj fields)) = true) :=
  ⟨fun _ _ _ hm hk => changelog_decode_unknown hm hk,
   fun _ _ _ _ hm h1 h2 => version_decode_unknown hm h1 h2,
   fun _ _ _ hm hk => changes_decode_unknown hm hk⟩

/-- Claim C4 witness: the rejection theorem instantiated on concrete
documents carrying `extra_field` at the root, inside a version entry and
inside a changes block. -/
theorem unknown_fields_rejected_witness :
    isErr (Changelog.decode (.obj badRootTree)) = true
    ∧ isErr (Version.decodeBody "1.0.0" (.obj badVersionFields)) = true
    ∧ isErr (Changes.decode (.obj badChangesFields)) = true :=
  ⟨unknown_fields_rejected.1 badRootTree "extra_field" (.str "x")
      (List.mem_cons_of_mem _ (List.mem_cons_of_mem _ (List.mem_cons_of_mem _
        (List.mem_cons_of_mem _ (List.mem_cons_of_mem _ (List.mem_cons_self _ _))))))
      (by decide),
   unknown_fields_rejected.2.1 "1.0.0" badVersionFields "extra_field" (.str "x")
      (List.mem_cons_of_mem _ (List.mem_cons_of_mem _ (List.mem_cons_self _ _)))
      (by decide) (by decide),
   unknown_fields_rejected.2.2 badChangesFields "extra_field" (.str "x")
      (List.mem_cons_of_mem _ (List.mem_cons_self _ _))
      (by decide)⟩

end ChangelogMd
